import Mathlib

/-!
Verification of the opentabagent command-to-action pipeline.

This file shallowly embeds the core of the browser-automation extension:
the action executor and page observer of the content script
(`src/content.ts`, reproduced in the repository README), the AI clients'
reply parsing and prompt construction (`src/api/ai-client.ts`), the shared
data model (`src/types.ts`), and the orchestration step of the side panel
(`src/sidepanel/sidepanel.ts`).

Browser platform facilities (the live DOM, `document.querySelector`,
native click activation, event dispatch) are modeled as an abstract DOM
interface over an arbitrary page-state type; the content-script functions
are translated line by line against that interface.
-/

namespace OpenTabAgent

/-! ## Data model (src/types.ts)

`interface Action { type: ActionType; selector: string; value?: string;
description?: string }`.  At runtime the planner output is produced by
`JSON.parse` without validation, so the `type` field is modeled as an
arbitrary string rather than the three-value union. -/

structure Action where
  type : String
  selector : String
  value : Option String := none
  description : Option String := none
  deriving Repr, DecidableEq, Inhabited

/-- `interface ActionResult { success: boolean; action: Action; error?: string }` -/
structure ActionResult where
  success : Bool
  action : Action
  error : Option String := none
  deriving Repr, DecidableEq, Inhabited

/-! ## Abstract DOM interface for the executor (platform externals)

`executeAction` touches the live page through `document.querySelector`,
`element.click()` and value assignment plus event dispatch.  The page is an
arbitrary state type `σ`; the three operations are fields of `Dom σ`.
A resolved node carries the two instance checks the executor performs. -/

/-- The facts about a resolved element that `executeAction` branches on:
`element instanceof HTMLElement` and
`element instanceof HTMLInputElement || element instanceof HTMLTextAreaElement`. -/
structure DomNode where
  isHTMLElement : Bool
  isTextEntry : Bool
  deriving Repr, DecidableEq, Inhabited

/-- The platform operations used by the executor.  `click` and `fill` return
the successor page state (clicking may run arbitrary page handlers; filling
sets the value and dispatches `input`/`change` events).  Both are keyed by the
selector, which is how the executor located the element. -/
structure Dom (σ : Type) where
  querySelector : σ → String → Option DomNode
  click : σ → String → σ
  fill : σ → String → String → σ

/-! ## Action Executor (src/content.ts, `executeAction` / `executeActions`) -/

/-- `executeAction` from src/content.ts (README lines 391-450), returning the
result together with the page state after the action.  The `wait` branch is
checked first and never consults the selector; `setTimeout` has no modeled
page effect.  For the other types the selector is resolved first; a `null`
result or a non-`HTMLElement` yields a failure result.  `fill` uses
`action.value || ''` (so an absent or empty value writes the empty string).
The surrounding `try/catch` only converts thrown exceptions into failure
results; the modeled platform operations are total, so no exception path
arises in the model. -/
def executeAction {σ : Type} (D : Dom σ) (st : σ) (a : Action) :
    ActionResult × σ :=
  if a.type = "wait" then
    ({ success := true, action := a }, st)
  else
    match D.querySelector st a.selector with
    | none =>
      ({ success := false, action := a
         error := some ("Element not found: " ++ a.selector) }, st)
    | some el =>
      if !el.isHTMLElement then
        ({ success := false, action := a
           error := some ("Element is not an HTMLElement: " ++ a.selector) }, st)
      else if a.type = "click" then
        ({ success := true, action := a }, D.click st a.selector)
      else if a.type = "fill" then
        if el.isTextEntry then
          ({ success := true, action := a }, D.fill st a.selector (a.value.getD ""))
        else
          ({ success := false, action := a
             error := some ("Element is not an input or textarea: " ++ a.selector) }, st)
      else
        ({ success := false, action := a
           error := some ("Unknown action type: " ++ a.type) }, st)

/-- `executeActions` from src/content.ts (README lines 453-470): run the
actions in list order, collecting one result per attempted action, and stop
at the first result with `success == false`.  The 500 ms inter-action delay
has no modeled page effect. -/
def executeActions {σ : Type} (D : Dom σ) : σ → List Action → List ActionResult
  | _, [] => []
  | st, a :: rest =>
    let r := executeAction D st a
    if r.1.success then r.1 :: executeActions D r.2 rest else [r.1]

/-- A page on which no selector resolves (used to instantiate theorems at
concrete inputs). -/
def unitDom : Dom Unit where
  querySelector := fun _ _ => none
  click := fun s _ => s
  fill := fun s _ _ => s

/-- A page on which every selector resolves to the given node (used to
instantiate theorems at concrete inputs). -/
def nodeDom (n : DomNode) : Dom Unit where
  querySelector := fun _ _ => some n
  click := fun s _ => s
  fill := fun s _ _ => s

/-! ## Page Observer (src/content.ts, `getSelector` / `extractPageContext`) -/

/-- The tag classification `extractPageContext` branches on via `instanceof`
(`HTMLInputElement`, `HTMLTextAreaElement`, `HTMLButtonElement`,
`HTMLSelectElement`). -/
inductive ElemKind where
  | input
  | textarea
  | button
  | select
  | other
  deriving Repr, DecidableEq, Inhabited

/-- What the observer reads off one element returned by the interactive-elements
query: the instance checks, the computed style fields the visibility filter
looks at, the attributes/properties used for selector synthesis and for the
`DOMElement` record, and the sibling information the `nth-of-type` fallback
traverses.  `className` is `none` when the DOM property is not a string (the
SVG case the source guards with `typeof element.className === 'string'`);
attributes read with `getAttribute` return `null` or a string, and since the
source only ever tests them for truthiness, `null` and `""` behave alike and
both are modeled as `""`.  `parent` is `none` when `parentElement` is null;
otherwise it carries the tag names of the parent's children together with this
element's position among them. -/
structure RawElem where
  isHTMLElement : Bool
  display : String
  visibility : String
  opacity : String
  tagName : String
  id : String
  className : Option String := none
  textContent : Option String := none
  kind : ElemKind := ElemKind.other
  inputType : String := ""
  name : String := ""
  placeholder : String := ""
  value : String := ""
  checked : Bool := false
  disabled : Bool := false
  parent : Option (List String × Nat) := none
  deriving Repr, DecidableEq, Inhabited

/-- One record of the snapshot, `interface DOMElement` from src/types.ts. -/
structure DOMElement where
  selector : String
  tag : String
  type : Option String := none
  id : Option String := none
  className : Option String := none
  text : Option String := none
  placeholder : Option String := none
  name : Option String := none
  value : Option String := none
  checked : Option Bool := none
  disabled : Option Bool := none
  deriving Repr, DecidableEq, Inhabited

/-- `interface PageContext` from src/types.ts. -/
structure PageContext where
  url : String
  title : String
  elements : List DOMElement
  screenshot : Option String := none
  deriving Repr, DecidableEq, Inhabited

/-! ### JavaScript string operations

The handful of string operations the source uses, modeled on `List Char` /
`String` so that every definition reduces in the kernel.  JS counts UTF-16
units where Lean counts code points; the difference only shows on
astral-plane characters. -/

/-- `String.prototype.trim()` on the underlying character list.  JS trims the
Unicode WhiteSpace and LineTerminator classes; `Char.isWhitespace` covers the
ASCII ones, which is where all uses in this code operate. -/
def jsTrimL (cs : List Char) : List Char :=
  ((cs.dropWhile Char.isWhitespace).reverse.dropWhile Char.isWhitespace).reverse

/-- `String.prototype.trim()`. -/
def jsTrim (s : String) : String := ⟨jsTrimL s.data⟩

/-- Helper for `jsWords`: split at every whitespace character. -/
def splitWsAux : List Char → List Char → List String
  | [], acc => [⟨acc.reverse⟩]
  | c :: cs, acc =>
    if c.isWhitespace then ⟨acc.reverse⟩ :: splitWsAux cs [] else splitWsAux cs (c :: acc)

/-- `s.split(/\s+/).filter(c => c)`: splitting at single whitespace characters
and then dropping empty segments coincides with splitting at whitespace runs
and dropping the empty segments a leading/trailing run produces. -/
def jsWords (s : String) : List String :=
  (splitWsAux s.data []).filter (· ≠ "")

/-- `s.substring(0, n)` (counted in code points, see above). -/
def jsTake (s : String) (n : Nat) : String := ⟨s.data.take n⟩

/-- `s.toLowerCase()`; for the ASCII tag/class names this code handles it
agrees with per-character lowering. -/
def jsToLower (s : String) : String := ⟨s.data.map Char.toLower⟩

/-! ### Selector Synthesizer (src/content.ts, `getSelector`) -/

/-- `getSelector` from src/content.ts (README lines 286-325).  `qc sel` models
`document.querySelectorAll(sel).length` on the current page.  Truthiness tests
on `element.id` / attributes are emptiness tests (`getAttribute`'s `null` and
`""` behave alike and are both modeled as `""`).  In the fallback, `indexOf`
of the element among its parent's same-tag children equals the number of
same-tag children before its position; with no `parentElement` the sibling
array is empty and `indexOf` yields `-1`, producing `nth-of-type(0)`. -/
def getSelector (qc : String → Nat) (e : RawElem) : String :=
  if e.id ≠ "" then
    "#" ++ e.id
  else if e.name ≠ "" then
    "[name=\"" ++ e.name ++ "\"]"
  else
    let classSel : Option String :=
      match e.className with
      | some c =>
        if c ≠ "" then
          let classes := jsWords (jsTrim c)
          if classes.length > 0 then
            let sel := jsToLower e.tagName ++ "." ++ String.intercalate "." classes
            if qc sel = 1 then some sel else none
          else none
        else none
      | none => none
    match classSel with
    | some sel => sel
    | none =>
      let placeholderSel : Option String :=
        if e.placeholder ≠ "" then
          let sel := jsToLower e.tagName ++ "[placeholder=\"" ++ e.placeholder ++ "\"]"
          if qc sel = 1 then some sel else none
        else none
      match placeholderSel with
      | some sel => sel
      | none =>
        let index : Int :=
          match e.parent with
          | none => -1
          | some (tags, pos) => ((tags.take pos).filter (· == e.tagName)).length
        jsToLower e.tagName ++ ":nth-of-type(" ++ toString (index + 1) ++ ")"

/-! ### Page Observer (src/content.ts, `extractPageContext`) -/

/-- The `DOMElement` record built for one retained element
(README lines 354-378): the base fields, then the type-specific extras for
form-control tags.  `x || undefined` maps the empty string to an absent
field; `type` and `checked` are set unconditionally for inputs. -/
def buildDomElement (qc : String → Nat) (el : RawElem) : DOMElement :=
  let base : DOMElement := {
    selector := getSelector qc el
    tag := jsToLower el.tagName
    id := if el.id ≠ "" then some el.id else none
    className :=
      match el.className with
      | some c => if c ≠ "" then some c else none
      | none => none
    text :=
      match el.textContent with
      | none => none
      | some t =>
        let s := jsTake (jsTrim t) 100
        if s ≠ "" then some s else none }
  match el.kind with
  | ElemKind.input =>
    { base with
      type := some el.inputType
      name := if el.name ≠ "" then some el.name else none
      placeholder := if el.placeholder ≠ "" then some el.placeholder else none
      value := if el.value ≠ "" then some el.value else none
      checked := some el.checked
      disabled := some el.disabled }
  | ElemKind.textarea =>
    { base with
      name := if el.name ≠ "" then some el.name else none
      placeholder := if el.placeholder ≠ "" then some el.placeholder else none
      value := if el.value ≠ "" then some el.value else none
      disabled := some el.disabled }
  | ElemKind.button =>
    { base with
      name := if el.name ≠ "" then some el.name else none
      disabled := some el.disabled }
  | ElemKind.select =>
    { base with
      name := if el.name ≠ "" then some el.name else none
      disabled := some el.disabled }
  | ElemKind.other => base

/-- The observer's view of the live document: the element sequence
`document.querySelectorAll(interactiveSelectors.join(','))` yields in
document order, the page URL and title, and the match counts `getSelector`
queries with `document.querySelectorAll(sel).length`. -/
structure PageDom where
  url : String
  title : String
  foundElements : List RawElem
  queryCount : String → Nat

/-- The fixed interactive-role query list of `extractPageContext`
(README lines 332-341). -/
def interactiveSelectors : List String :=
  ["input:not([type=\"hidden\"])", "textarea", "button", "select", "a[href]",
   "[role=\"button\"]", "[onclick]", "[contenteditable=\"true\"]"]

/-- The visibility filter of `extractPageContext` (README line 350):
`style.display === 'none' || style.visibility === 'hidden' ||
style.opacity === '0'`. -/
def isInvisible (el : RawElem) : Bool :=
  el.display == "none" || el.visibility == "hidden" || el.opacity == "0"

/-- `extractPageContext` from src/content.ts (README lines 328-388): walk the
found elements in discovery order, skip non-`HTMLElement`s and elements the
visibility filter rejects, build a `DOMElement` for each retained element,
and truncate the collected sequence to the first 100. -/
def extractPageContext (p : PageDom) : PageContext :=
  let elements :=
    p.foundElements.foldl
      (fun acc el =>
        if !el.isHTMLElement then acc
        else if isInvisible el then acc
        else acc ++ [buildDomElement p.queryCount el])
      []
  { url := p.url, title := p.title, elements := elements.take 100 }

/-! ## Action Planner (src/api/ai-client.ts)

The two backend classes duplicate their deterministic request-assembly
verbatim; each class's `formatElements` and `buildUserPrompt` is transcribed
below under its own namespace. -/

namespace ClaudeClient

/-- `ClaudeClient.formatElements` (src/api/ai-client.ts lines 91-111): one
pipe-separated line per element with `[index]` and `Tag:` always present and
the optional parts kept only when JS-truthy (`el.checked !== undefined` keeps
`false`; `el.disabled && ...` keeps only `true`; an empty string is falsy and
is dropped). -/
def formatElements (elements : List DOMElement) : String :=
  String.intercalate "\n" <| elements.enum.map fun (idx, el) =>
    let parts : List (Option String) := [
      some ("[" ++ toString idx ++ "]"),
      some ("Tag: " ++ el.tag),
      (match el.type with
       | some s => if s = "" then none else some ("Type: " ++ s)
       | none => none),
      (if el.selector = "" then none else some ("Selector: " ++ el.selector)),
      (match el.id with
       | some s => if s = "" then none else some ("ID: " ++ s)
       | none => none),
      (match el.className with
       | some s => if s = "" then none else some ("Class: " ++ s)
       | none => none),
      (match el.text with
       | some s => if s = "" then none else some ("Text: \"" ++ s ++ "\"")
       | none => none),
      (match el.placeholder with
       | some s => if s = "" then none else some ("Placeholder: \"" ++ s ++ "\"")
       | none => none),
      (match el.name with
       | some s => if s = "" then none else some ("Name: " ++ s)
       | none => none),
      (match el.value with
       | some s => if s = "" then none else some ("Value: \"" ++ s ++ "\"")
       | none => none),
      (match el.checked with
       | some b => some ("Checked: " ++ toString b)
       | none => none),
      (match el.disabled with
       | some true => some "Disabled: true"
       | _ => none)]
    String.intercalate " | " (parts.filterMap id)

/-- `ClaudeClient.buildUserPrompt` (src/api/ai-client.ts lines 113-123). -/
def buildUserPrompt (url title elementsText userCommand : String) : String :=
  "Page URL: " ++ url ++ "\nPage Title: " ++ title ++
  "\n\nInteractive Elements:\n" ++ elementsText ++
  "\n\nUser Command: " ++ userCommand ++
  "\n\nPlease analyze the page and provide actions to complete this task."

end ClaudeClient

namespace OpenAIClient

/-- `OpenAIClient.formatElements` (src/api/ai-client.ts lines 203-223),
transcribed from the `OpenAIClient` class body. -/
def formatElements (elements : List DOMElement) : String :=
  String.intercalate "\n" <| elements.enum.map fun (idx, el) =>
    let parts : List (Option String) := [
      some ("[" ++ toString idx ++ "]"),
      some ("Tag: " ++ el.tag),
      (match el.type with
       | some s => if s = "" then none else some ("Type: " ++ s)
       | none => none),
      (if el.selector = "" then none else some ("Selector: " ++ el.selector)),
      (match el.id with
       | some s => if s = "" then none else some ("ID: " ++ s)
       | none => none),
      (match el.className with
       | some s => if s = "" then none else some ("Class: " ++ s)
       | none => none),
      (match el.text with
       | some s => if s = "" then none else some ("Text: \"" ++ s ++ "\"")
       | none => none),
      (match el.placeholder with
       | some s => if s = "" then none else some ("Placeholder: \"" ++ s ++ "\"")
       | none => none),
      (match el.name with
       | some s => if s = "" then none else some ("Name: " ++ s)
       | none => none),
      (match el.value with
       | some s => if s = "" then none else some ("Value: \"" ++ s ++ "\"")
       | none => none),
      (match el.checked with
       | some b => some ("Checked: " ++ toString b)
       | none => none),
      (match el.disabled with
       | some true => some "Disabled: true"
       | _ => none)]
    String.intercalate " | " (parts.filterMap id)

/-- `OpenAIClient.buildUserPrompt` (src/api/ai-client.ts lines 225-235). -/
def buildUserPrompt (url title elementsText userCommand : String) : String :=
  "Page URL: " ++ url ++ "\nPage Title: " ++ title ++
  "\n\nInteractive Elements:\n" ++ elementsText ++
  "\n\nUser Command: " ++ userCommand ++
  "\n\nPlease analyze the page and provide actions to complete this task."

end OpenAIClient

/-! ### Reply parsing (`extractActions`)

`extractActions` trims the reply, takes the greedy bracket span matched by
`/\[[\s\S]*\]/` — from the first `[` that has a `]` after it up to the last
`]` of the string — and feeds it to `JSON.parse`, returning the parsed value
with no further validation.  `JSON.parse` is modeled by a recursive-descent
parser for the JSON grammar over a model of JS values. -/

/-- The value space of `JSON.parse`.  A numeric literal is kept verbatim
(IEEE-754 conversion is out of scope); object fields are kept in textual
order. -/
inductive Json where
  | null
  | bool (b : Bool)
  | num (lexeme : String)
  | str (s : String)
  | arr (elems : List Json)
  | obj (fields : List (String × Json))
  deriving Repr, Inhabited

/-- JSON's insignificant whitespace (RFC 8259: space, tab, LF, CR). -/
def jsonWs (c : Char) : Bool :=
  c = ' ' || c = '\t' || c = '\n' || c = '\r'

def skipJsonWs (cs : List Char) : List Char := cs.dropWhile jsonWs

def hexDigitVal (c : Char) : Option Nat :=
  if '0' ≤ c ∧ c ≤ '9' then some (c.toNat - '0'.toNat)
  else if 'a' ≤ c ∧ c ≤ 'f' then some (c.toNat - 'a'.toNat + 10)
  else if 'A' ≤ c ∧ c ≤ 'F' then some (c.toNat - 'A'.toNat + 10)
  else none

/-- Parse the body of a JSON string after the opening quote: the decoded
characters plus the rest of the input after the closing quote.  Raw control
characters are rejected, the standard escapes and `\uXXXX` are decoded
(UTF-16 surrogate pairing is out of scope: a lone surrogate escape decodes to
the null character via `Char.ofNat`). -/
def parseJsonStr : Nat → List Char → Option (List Char × List Char)
  | 0, _ => none
  | _, [] => none
  | fuel + 1, c :: rest =>
    if c = '"' then some ([], rest)
    else if c = '\\' then
      match rest with
      | [] => none
      | e :: rest2 =>
        let cont (ch : Char) (r : List Char) : Option (List Char × List Char) :=
          (parseJsonStr fuel r).map fun p => (ch :: p.1, p.2)
        if e = '"' then cont '"' rest2
        else if e = '\\' then cont '\\' rest2
        else if e = '/' then cont '/' rest2
        else if e = 'b' then cont '\x08' rest2
        else if e = 'f' then cont '\x0c' rest2
        else if e = 'n' then cont '\n' rest2
        else if e = 'r' then cont '\r' rest2
        else if e = 't' then cont '\t' rest2
        else if e = 'u' then
          match rest2 with
          | h1 :: h2 :: h3 :: h4 :: rest3 =>
            match hexDigitVal h1, hexDigitVal h2, hexDigitVal h3, hexDigitVal h4 with
            | some a, some b, some c2, some d =>
              cont (Char.ofNat (((a * 16 + b) * 16 + c2) * 16 + d)) rest3
            | _, _, _, _ => none
          | _ => none
        else none
    else if c.toNat < 32 then none
    else (parseJsonStr fuel rest).map fun p => (c :: p.1, p.2)

/-- Parse a JSON number (`-? (0 | [1-9][0-9]*) frac? exp?`), returning its
lexeme and the rest of the input. -/
def parseJsonNum (cs0 : List Char) : Option (List Char × List Char) :=
  let signed : List Char × List Char :=
    match cs0 with
    | '-' :: t => (['-'], t)
    | _ => ([], cs0)
  let intDigits := signed.2.takeWhile Char.isDigit
  let afterInt := signed.2.dropWhile Char.isDigit
  if intDigits = [] then none
  else if intDigits.head? = some '0' ∧ intDigits.length > 1 then none
  else
    let fracPart : Option (List Char × List Char) :=
      match afterInt with
      | '.' :: t =>
        let fd := t.takeWhile Char.isDigit
        if fd = [] then none else some ('.' :: fd, t.dropWhile Char.isDigit)
      | _ => some ([], afterInt)
    match fracPart with
    | none => none
    | some (frac, afterFrac) =>
      let expPart : Option (List Char × List Char) :=
        match afterFrac with
        | e :: t =>
          if e = 'e' ∨ e = 'E' then
            let (sgn, t2) :=
              match t with
              | s :: t2 => if s = '+' ∨ s = '-' then ([s], t2) else ([], t)
              | [] => ([], t)
            let ed := t2.takeWhile Char.isDigit
            if ed = [] then none
            else some (e :: sgn ++ ed, t2.dropWhile Char.isDigit)
          else some ([], afterFrac)
        | [] => some ([], afterFrac)
      match expPart with
      | none => none
      | some (ex, rest) => some (signed.1 ++ intDigits ++ frac ++ ex, rest)

mutual

/-- Parse one JSON value at the head of the input (leading whitespace already
skipped), returning it and the rest of the input.  The fuel only bounds the
recursion into nested values and separate items; `jsonParse` supplies enough
for any input of its length. -/
def parseJsonVal : Nat → List Char → Option (Json × List Char)
  | 0, _ => none
  | fuel + 1, cs =>
    match cs with
    | [] => none
    | c :: rest =>
      if c = 'n' then
        match rest with
        | 'u' :: 'l' :: 'l' :: r => some (Json.null, r)
        | _ => none
      else if c = 't' then
        match rest with
        | 'r' :: 'u' :: 'e' :: r => some (Json.bool true, r)
        | _ => none
      else if c = 'f' then
        match rest with
        | 'a' :: 'l' :: 's' :: 'e' :: r => some (Json.bool false, r)
        | _ => none
      else if c = '"' then
        (parseJsonStr (rest.length + 1) rest).map fun p => (Json.str ⟨p.1⟩, p.2)
      else if c = '[' then
        match skipJsonWs rest with
        | ']' :: r2 => some (Json.arr [], r2)
        | r1 =>
          match parseJsonItems fuel r1 with
          | some (xs, r2) => some (Json.arr xs, r2)
          | none => none
      else if c = '{' then
        match skipJsonWs rest with
        | '}' :: r2 => some (Json.obj [], r2)
        | r1 =>
          match parseJsonFields fuel r1 with
          | some (fs, r2) => some (Json.obj fs, r2)
          | none => none
      else
        (parseJsonNum cs).map fun p => (Json.num ⟨p.1⟩, p.2)

/-- Parse the comma-separated items of a non-empty array, consuming the
closing `]`. -/
def parseJsonItems : Nat → List Char → Option (List Json × List Char)
  | 0, _ => none
  | fuel + 1, cs =>
    match parseJsonVal fuel cs with
    | none => none
    | some (v, r) =>
      match skipJsonWs r with
      | ',' :: r2 =>
        match parseJsonItems fuel (skipJsonWs r2) with
        | some (xs, r3) => some (v :: xs, r3)
        | none => none
      | ']' :: r2 => some ([v], r2)
      | _ => none

/-- Parse the comma-separated `"key": value` fields of a non-empty object,
consuming the closing `}`. -/
def parseJsonFields : Nat → List Char → Option (List (String × Json) × List Char)
  | 0, _ => none
  | fuel + 1, cs =>
    match cs with
    | '"' :: rest =>
      match parseJsonStr (rest.length + 1) rest with
      | none => none
      | some (k, r) =>
        match skipJsonWs r with
        | ':' :: r2 =>
          match parseJsonVal fuel (skipJsonWs r2) with
          | none => none
          | some (v, r3) =>
            match skipJsonWs r3 with
            | ',' :: r4 =>
              match parseJsonFields fuel (skipJsonWs r4) with
              | some (fs, r5) => some ((⟨k⟩, v) :: fs, r5)
              | none => none
            | '}' :: r4 => some ([(⟨k⟩, v)], r4)
            | _ => none
        | _ => none
    | _ => none

end

/-- `JSON.parse` on a character list: one value, surrounded by nothing but
whitespace; `none` models the thrown `SyntaxError`.  `2·length + 2` fuel
suffices: every fuel step of the mutual parser follows at least one consumed
character. -/
def jsonParseL (cs : List Char) : Option Json :=
  let body := skipJsonWs cs
  match parseJsonVal (2 * cs.length + 2) body with
  | some (v, r) => if skipJsonWs r = [] then some v else none
  | none => none

/-- `JSON.parse`. -/
def jsonParse (s : String) : Option Json := jsonParseL s.data

/-- `l` with its longest suffix of `p`-satisfying elements removed. -/
def dropTrailing (p : Char → Bool) (cs : List Char) : List Char :=
  (cs.reverse.dropWhile p).reverse

/-- The match of the greedy regex `/\[[\s\S]*\]/`: everything from the first
`[` on, truncated after the last `]`; no match when no `[` is followed by a
later `]`. -/
def bracketSpan (cs : List Char) : Option (List Char) :=
  let t := dropTrailing (fun c => !(c = ']')) (cs.dropWhile fun c => !(c = '['))
  if t.isEmpty then none else some t

/-- `extractActions` (identical in `ClaudeClient`, src/api/ai-client.ts lines
125-132, and `OpenAIClient`, lines 237-244) on the underlying characters:
trim the reply, throw `Could not find JSON array in response` when the greedy
bracket regex finds no match, otherwise return `JSON.parse` of the matched
span — the parsed value is returned as the `Action[]` with no shape
validation, and a `JSON.parse` failure propagates as the thrown
`SyntaxError`. -/
def extractActionsL (cs : List Char) : Except String Json :=
  match bracketSpan (jsTrimL cs) with
  | none => Except.error "Could not find JSON array in response"
  | some span =>
    match jsonParseL span with
    | some v => Except.ok v
    | none => Except.error "SyntaxError: JSON.parse"

/-- `extractActions` on a reply string. -/
def extractActions (text : String) : Except String Json :=
  extractActionsL text.data

/-- Decoder for the `Action` shape declared in src/types.ts
(`type` one of the three literals, `selector` a required string, `value` and
`description` absent or strings).  The source never runs such a check — this
definition only names what "well-formed per the Action shape" means. -/
def decodeAction (j : Json) : Option Action :=
  match j with
  | Json.obj fields =>
    let get (k : String) : Option Json := (fields.find? fun p => p.1 == k).map (·.2)
    match get "type", get "selector" with
    | some (Json.str t), some (Json.str sel) =>
      if t = "click" ∨ t = "fill" ∨ t = "wait" then
        let optStr : Option Json → Option (Option String)
          | none => some none
          | some (Json.str s) => some (some s)
          | some _ => none
        match optStr (get "value"), optStr (get "description") with
        | some v, some d =>
          some { type := t, selector := sel, value := v, description := d }
        | _, _ => none
      else none
    | _, _ => none
  | _ => none

/-- Decoder for `Action[]`: a JSON array whose members all decode. -/
def decodeActions (j : Json) : Option (List Action) :=
  match j with
  | Json.arr xs => xs.mapM decodeAction
  | _ => none

/-! ## Orchestrator (src/sidepanel/sidepanel.ts, `handleSendCommand`)

Once the planner has returned an `Action[]`, `handleSendCommand` (lines
287-309) either reports that nothing is to be done and returns without
calling the executor, or announces the planned actions and sends them for
execution.  That decision step is modeled as a pure function into an outcome
type whose `execute` alternative is the only one carrying a batch — the
executor is invoked exactly on the batch of an `execute` outcome. -/

/-- JS `a || b` on an optional string: the fallback is used for `undefined`
and for the falsy empty string. -/
def jsOr (o : Option String) (fallback : String) : String :=
  match o with
  | some s => if s = "" then fallback else s
  | none => fallback

/-- What `handleSendCommand` does with the planner's action list: either the
no-actions chat reply (and an early return before `executeActions`), or the
announcement message together with the batch passed to `executeActions`. -/
inductive PlanOutcome where
  | noActions (message : String)
  | execute (announcement : String) (batch : List Action)
  deriving Repr, DecidableEq, Inhabited

/-- The planner-result handling of `handleSendCommand`
(src/sidepanel/sidepanel.ts lines 289-309): on `actions.length === 0` add the
assistant message `I could not determine any actions to take for this
command.` and return; otherwise announce
`I will perform these actions:<br>` followed by the numbered
`${i + 1}. ${a.description || a.type}` lines and execute the batch. -/
def handlePlannedActions (actions : List Action) : PlanOutcome :=
  if actions.length = 0 then
    PlanOutcome.noActions "I could not determine any actions to take for this command."
  else
    let actionsHtml := String.intercalate "<br>" <|
      actions.enum.map fun p => toString (p.1 + 1) ++ ". " ++ jsOr p.2.description p.2.type
    PlanOutcome.execute ("I will perform these actions:<br>" ++ actionsHtml) actions

/-- Whether an outcome reaches `executeActions`. -/
def invokesExecutor : PlanOutcome → Bool
  | PlanOutcome.noActions _ => false
  | PlanOutcome.execute _ _ => true

/-! # Theorems -/

/-! ## Executor lemmas -/

lemma executeActions_cons {σ : Type} (D : Dom σ) (st : σ) (a : Action)
    (rest : List Action) :
    executeActions D st (a :: rest) =
      if (executeAction D st a).1.success then
        (executeAction D st a).1 :: executeActions D (executeAction D st a).2 rest
      else
        [(executeAction D st a).1] := rfl

/-- Every branch of `executeAction` copies the attempted action into the
result's `action` field. -/
lemma executeAction_action {σ : Type} (D : Dom σ) (st : σ) (a : Action) :
    (executeAction D st a).1.action = a := by
  unfold executeAction
  repeat' split
  all_goals rfl

lemma executeActions_length_le {σ : Type} (D : Dom σ) :
    ∀ (st : σ) (acts : List Action),
      (executeActions D st acts).length ≤ acts.length := by
  intro st acts
  induction acts generalizing st with
  | nil => simp [executeActions]
  | cons a rest ih =>
    rw [executeActions_cons]
    by_cases hs : (executeAction D st a).1.success = true
    · rw [if_pos hs]
      simpa using Nat.succ_le_succ (ih (executeAction D st a).2)
    · rw [if_neg hs]
      simp only [List.length_cons, List.length_nil]
      omega

lemma executeActions_get_action {σ : Type} (D : Dom σ) :
    ∀ (st : σ) (acts : List Action) (i : Nat)
      (hi : i < (executeActions D st acts).length) (ha : i < acts.length),
      ((executeActions D st acts).get ⟨i, hi⟩).action = acts.get ⟨i, ha⟩ := by
  intro st acts
  induction acts generalizing st with
  | nil => intro i hi _; simp [executeActions] at hi
  | cons a rest ih =>
    by_cases hs : (executeAction D st a).1.success = true
    · have hE : executeActions D st (a :: rest) =
          (executeAction D st a).1 :: executeActions D (executeAction D st a).2 rest := by
        rw [executeActions_cons, if_pos hs]
      rw [hE]
      intro i hi ha
      cases i with
      | zero => exact executeAction_action D st a
      | succ j =>
        exact ih (executeAction D st a).2 j (Nat.lt_of_succ_lt_succ hi)
          (Nat.lt_of_succ_lt_succ ha)
    · have hE : executeActions D st (a :: rest) = [(executeAction D st a).1] := by
        rw [executeActions_cons, if_neg hs]
      rw [hE]
      intro i hi ha
      cases i with
      | zero => exact executeAction_action D st a
      | succ j => simp at hi

lemma executeActions_success_of_not_last {σ : Type} (D : Dom σ) :
    ∀ (st : σ) (acts : List Action) (i : Nat)
      (hi : i < (executeActions D st acts).length),
      i + 1 < (executeActions D st acts).length →
      ((executeActions D st acts).get ⟨i, hi⟩).success = true := by
  intro st acts
  induction acts generalizing st with
  | nil => intro i hi _; simp [executeActions] at hi
  | cons a rest ih =>
    by_cases hs : (executeAction D st a).1.success = true
    · have hE : executeActions D st (a :: rest) =
          (executeAction D st a).1 :: executeActions D (executeAction D st a).2 rest := by
        rw [executeActions_cons, if_pos hs]
      rw [hE]
      intro i hi hlt
      cases i with
      | zero => exact hs
      | succ j =>
        exact ih (executeAction D st a).2 j (Nat.lt_of_succ_lt_succ hi)
          (Nat.lt_of_succ_lt_succ hlt)
    · have hE : executeActions D st (a :: rest) = [(executeAction D st a).1] := by
        rw [executeActions_cons, if_neg hs]
      rw [hE]
      intro i hi hlt
      simp at hlt

lemma executeActions_last_failed_of_lt {σ : Type} (D : Dom σ) :
    ∀ (st : σ) (acts : List Action),
      (executeActions D st acts).length < acts.length →
      ∃ i, ∃ h : i < (executeActions D st acts).length,
        ((executeActions D st acts).get ⟨i, h⟩).success = false ∧
          i + 1 = (executeActions D st acts).length := by
  intro st acts
  induction acts generalizing st with
  | nil => intro h; simp [executeActions] at h
  | cons a rest ih =>
    by_cases hs : (executeAction D st a).1.success = true
    · have hE : executeActions D st (a :: rest) =
          (executeAction D st a).1 :: executeActions D (executeAction D st a).2 rest := by
        rw [executeActions_cons, if_pos hs]
      rw [hE]
      intro hlt
      have hlt' : (executeActions D (executeAction D st a).2 rest).length < rest.length := by
        simpa using Nat.lt_of_succ_lt_succ hlt
      obtain ⟨j, hj, hfail, hjlen⟩ := ih (executeAction D st a).2 hlt'
      exact ⟨j + 1, Nat.succ_lt_succ hj, hfail, by simp [← hjlen]⟩
    · have hE : executeActions D st (a :: rest) = [(executeAction D st a).1] := by
        rw [executeActions_cons, if_neg hs]
      rw [hE]
      intro _
      exact ⟨0, by simp, by simpa using hs, by simp⟩

/-- C1: for every input list, `executeActions` returns at most one result per
action, and the result list is shorter than the input exactly when one of the
attempted actions failed at a position before the input's last — execution
stops at the first failure, so actions after it are never attempted. -/
theorem executeActions_length_le_and_lt_iff (σ : Type) (D : Dom σ) (st : σ)
    (acts : List Action) :
    (executeActions D st acts).length ≤ acts.length ∧
    ((executeActions D st acts).length < acts.length ↔
      ∃ i, ∃ h : i < (executeActions D st acts).length,
        ((executeActions D st acts).get ⟨i, h⟩).success = false ∧
          i + 1 < acts.length) := by
  refine ⟨executeActions_length_le D st acts, ?_, ?_⟩
  · intro hlt
    obtain ⟨i, h, hfail, hlen⟩ := executeActions_last_failed_of_lt D st acts hlt
    exact ⟨i, h, hfail, by omega⟩
  · rintro ⟨i, h, hfail, hilt⟩
    by_cases hmid : i + 1 < (executeActions D st acts).length
    · have := executeActions_success_of_not_last D st acts i h hmid
      rw [this] at hfail
      exact absurd hfail (by simp)
    · have : i + 1 = (executeActions D st acts).length := by omega
      omega

/-- C2: a `click` or `fill` action whose selector resolves to no element
yields `success=false` with error exactly `Element not found: <selector>`,
and the batch stops there: no action after it is attempted. -/
theorem executeAction_elementNotFound_halts (σ : Type) (D : Dom σ) (st : σ)
    (a : Action) (rest : List Action)
    (hty : a.type = "click" ∨ a.type = "fill")
    (hq : D.querySelector st a.selector = none) :
    executeAction D st a =
      ({ success := false, action := a
         error := some ("Element not found: " ++ a.selector) }, st) ∧
    executeActions D st (a :: rest) =
      [{ success := false, action := a
         error := some ("Element not found: " ++ a.selector) }] := by
  have hwait : ¬ a.type = "wait" := by
    rcases hty with h | h <;> simp [h]
  have h1 : executeAction D st a =
      ({ success := false, action := a
         error := some ("Element not found: " ++ a.selector) }, st) := by
    unfold executeAction
    rw [if_neg hwait, hq]
  refine ⟨h1, ?_⟩
  rw [executeActions_cons, h1]
  rfl

/-- Witness for C2 at a concrete input: a `fill` on `#missing` against a page
resolving no selector. -/
theorem executeAction_elementNotFound_halts_witness :
    (({ type := "fill", selector := "#missing", value := some "x" } : Action).type = "click" ∨
      ({ type := "fill", selector := "#missing", value := some "x" } : Action).type = "fill") ∧
    executeActions unitDom ()
        [{ type := "fill", selector := "#missing", value := some "x" },
         { type := "click", selector := "#next" }] =
      [{ success := false
         action := { type := "fill", selector := "#missing", value := some "x" }
         error := some "Element not found: #missing" }] := by
  refine ⟨Or.inr rfl, ?_⟩
  have h := executeAction_elementNotFound_halts Unit unitDom ()
    { type := "fill", selector := "#missing", value := some "x" }
    [{ type := "click", selector := "#next" }] (Or.inr rfl) rfl
  exact h.2

/-- C10: the `i`-th result of `executeActions` records exactly the `i`-th
input action (results are positional: the run covers an initial segment of
the batch), every result before the last is a success, and a `wait` action
always succeeds without the page or the selector being consulted (the result
is the same for every page state and every selector value). -/
theorem executeActions_results_invariant (σ : Type) (D : Dom σ) (st : σ)
    (acts : List Action) :
    (∀ i (hi : i < (executeActions D st acts).length) (ha : i < acts.length),
      ((executeActions D st acts).get ⟨i, hi⟩).action = acts.get ⟨i, ha⟩) ∧
    (∀ i (hi : i < (executeActions D st acts).length),
      i + 1 < (executeActions D st acts).length →
      ((executeActions D st acts).get ⟨i, hi⟩).success = true) ∧
    (∀ (st' : σ) (a : Action), a.type = "wait" →
      executeAction D st' a = ({ success := true, action := a }, st')) := by
  refine ⟨executeActions_get_action D st acts,
    executeActions_success_of_not_last D st acts, ?_⟩
  intro st' a ha
  unfold executeAction
  rw [if_pos ha]

/-- Witness for C10 at a concrete input: a two-action batch of `wait`s (with a
selector the page could never resolve) runs to completion with positional
results. -/
theorem executeActions_results_invariant_witness :
    ((executeActions unitDom ()
        [{ type := "wait", selector := "#a" }, { type := "wait", selector := "#b" }]).get
        ⟨0, by decide⟩).action =
      [({ type := "wait", selector := "#a" } : Action),
       { type := "wait", selector := "#b" }].get ⟨0, by decide⟩ ∧
    ((executeActions unitDom ()
        [{ type := "wait", selector := "#a" }, { type := "wait", selector := "#b" }]).get
        ⟨0, by decide⟩).success = true ∧
    executeAction unitDom () { type := "wait", selector := "#a" } =
      ({ success := true, action := { type := "wait", selector := "#a" } }, ()) := by
  obtain ⟨h1, h2, h3⟩ := executeActions_results_invariant Unit unitDom ()
    [{ type := "wait", selector := "#a" }, { type := "wait", selector := "#b" }]
  exact ⟨h1 0 (by decide) (by decide), h2 0 (by decide) (by decide),
    h3 () { type := "wait", selector := "#a" } rfl⟩

/-- C7 counterexample: the claim "for every action whose type is outside
{click, fill, wait}, `executeAction` returns a failure result whose error
names that unknown type" fails at the concrete input
`{type: "scroll", selector: "#x"}` on a page where `#x` does not resolve:
the selector is resolved before the type is inspected, so the error is
`Element not found: #x`, which does not name the type. -/
theorem executeAction_unknownType_counterexample :
    (executeAction unitDom () { type := "scroll", selector := "#x" }).1.success = false ∧
    (executeAction unitDom () { type := "scroll", selector := "#x" }).1.error =
      some "Element not found: #x" ∧
    (executeAction unitDom () { type := "scroll", selector := "#x" }).1.error ≠
      some ("Unknown action type: " ++
        ({ type := "scroll", selector := "#x" } : Action).type) := by
  exact ⟨rfl, rfl, by decide⟩

/-- C7 (amended): for every action whose type is outside {click, fill, wait},
`executeAction` returns a failure result and the batch halts there, exactly as
for resolution errors; the error names the unknown type when the selector
resolves to an `HTMLElement` (when it does not, the resolution error is
reported instead, since the selector is resolved before the type is
inspected). -/
theorem executeAction_unknownType_amended (σ : Type) (D : Dom σ) (st : σ)
    (a : Action) (rest : List Action)
    (h1 : a.type ≠ "click") (h2 : a.type ≠ "fill") (h3 : a.type ≠ "wait") :
    (executeAction D st a).1.success = false ∧
    (∀ el, D.querySelector st a.selector = some el → el.isHTMLElement = true →
      (executeAction D st a).1.error = some ("Unknown action type: " ++ a.type)) ∧
    executeActions D st (a :: rest) = [(executeAction D st a).1] := by
  have main : (executeAction D st a).1.success = false ∧
      (∀ el, D.querySelector st a.selector = some el → el.isHTMLElement = true →
        (executeAction D st a).1.error = some ("Unknown action type: " ++ a.type)) := by
    cases hq : D.querySelector st a.selector with
    | none =>
      have hEA : executeAction D st a =
          ({ success := false, action := a
             error := some ("Element not found: " ++ a.selector) }, st) := by
        unfold executeAction
        rw [if_neg h3, hq]
      refine ⟨by rw [hEA], ?_⟩
      intro el hel
      simp at hel
    | some el =>
      cases hhtml : el.isHTMLElement with
      | false =>
        have hEA : executeAction D st a =
            ({ success := false, action := a
               error := some ("Element is not an HTMLElement: " ++ a.selector) }, st) := by
          unfold executeAction
          rw [if_neg h3, hq]
          simp [hhtml]
        refine ⟨by rw [hEA], ?_⟩
        intro el' hel' hh
        cases hel'
        simp [hhtml] at hh
      | true =>
        have hEA : executeAction D st a =
            ({ success := false, action := a
               error := some ("Unknown action type: " ++ a.type) }, st) := by
          unfold executeAction
          rw [if_neg h3, hq]
          simp [hhtml, h1, h2]
        exact ⟨by rw [hEA], fun _ _ _ => by rw [hEA]⟩
  refine ⟨main.1, main.2, ?_⟩
  rw [executeActions_cons, if_neg (by simp [main.1])]

/-- Witness for the amended C7 at a concrete input: `{type: "scroll"}` on a
page whose every selector resolves to an `HTMLElement`. -/
theorem executeAction_unknownType_amended_witness :
    (executeAction (nodeDom { isHTMLElement := true, isTextEntry := false }) ()
      { type := "scroll", selector := "#y" }).1.success = false ∧
    (executeAction (nodeDom { isHTMLElement := true, isTextEntry := false }) ()
      { type := "scroll", selector := "#y" }).1.error = some "Unknown action type: scroll" ∧
    executeActions (nodeDom { isHTMLElement := true, isTextEntry := false }) ()
        [{ type := "scroll", selector := "#y" }, { type := "wait", selector := "" }] =
      [(executeAction (nodeDom { isHTMLElement := true, isTextEntry := false }) ()
        { type := "scroll", selector := "#y" }).1] := by
  obtain ⟨w1, w2, w3⟩ := executeAction_unknownType_amended Unit
    (nodeDom { isHTMLElement := true, isTextEntry := false }) ()
    { type := "scroll", selector := "#y" } [{ type := "wait", selector := "" }]
    (by decide) (by decide) (by decide)
  exact ⟨w1, w2 { isHTMLElement := true, isTextEntry := false } rfl rfl, w3⟩

/-! ## Selector Synthesizer and Page Observer -/

/-- C6: for every element with a non-empty `id`, `getSelector` returns exactly
`#<id>`, whatever the element's name, classes, placeholder, sibling position
or the page's query counts — the first rule always wins. -/
theorem getSelector_id_priority (qc : String → Nat) (e : RawElem)
    (h : e.id ≠ "") :
    getSelector qc e = "#" ++ e.id := by
  unfold getSelector
  rw [if_pos h]

/-- Witness for C6 at a concrete input: an element carrying an id and also a
name, classes and a placeholder, on a page where no candidate selector is
unique. -/
theorem getSelector_id_priority_witness :
    ({ isHTMLElement := true, display := "block", visibility := "visible",
       opacity := "1", tagName := "INPUT", id := "email",
       className := some "form-control wide", name := "user_email",
       placeholder := "Email" } : RawElem).id ≠ "" ∧
    getSelector (fun _ => 5)
      { isHTMLElement := true, display := "block", visibility := "visible",
        opacity := "1", tagName := "INPUT", id := "email",
        className := some "form-control wide", name := "user_email",
        placeholder := "Email" } = "#email" := by
  refine ⟨by decide, ?_⟩
  exact getSelector_id_priority (fun _ => 5)
    { isHTMLElement := true, display := "block", visibility := "visible",
      opacity := "1", tagName := "INPUT", id := "email",
      className := some "form-control wide", name := "user_email",
      placeholder := "Email" } (by decide)

/-- The observer's accumulating pass equals filtering to the retained elements
and mapping the record builder over them. -/
lemma observe_foldl_eq (qc : String → Nat) :
    ∀ (els : List RawElem) (acc : List DOMElement),
      els.foldl
        (fun acc el =>
          if !el.isHTMLElement then acc
          else if isInvisible el then acc
          else acc ++ [buildDomElement qc el])
        acc =
      acc ++ (els.filter fun el => el.isHTMLElement && !isInvisible el).map
        (buildDomElement qc) := by
  intro els
  induction els with
  | nil => intro acc; simp
  | cons el rest ih =>
    intro acc
    rw [List.foldl_cons, ih, List.filter_cons]
    by_cases h1 : el.isHTMLElement = true
    · by_cases h2 : isInvisible el = true
      · simp [h1, h2]
      · simp only [Bool.not_eq_true] at h2
        simp [h1, h2]
    · simp only [Bool.not_eq_true] at h1
      simp [h1]

/-- C5: the snapshot holds at most 100 elements; it is exactly the first 100
retained elements in discovery order; and every snapshot entry arises from a
found `HTMLElement` whose computed style is not `display:none`,
`visibility:hidden` or zero opacity. -/
theorem extractPageContext_bounded_and_visible (p : PageDom) :
    (extractPageContext p).elements.length ≤ 100 ∧
    (extractPageContext p).elements =
      ((p.foundElements.filter fun el => el.isHTMLElement && !isInvisible el).map
        (buildDomElement p.queryCount)).take 100 ∧
    ∀ d ∈ (extractPageContext p).elements,
      ∃ el, el ∈ p.foundElements ∧ el.isHTMLElement = true ∧ isInvisible el = false ∧
        buildDomElement p.queryCount el = d := by
  have hE : (extractPageContext p).elements =
      ((p.foundElements.filter fun el => el.isHTMLElement && !isInvisible el).map
        (buildDomElement p.queryCount)).take 100 := by
    simp only [extractPageContext]
    rw [observe_foldl_eq]
    simp
  refine ⟨?_, hE, ?_⟩
  · rw [hE, List.length_take]
    omega
  · intro d hd
    rw [hE] at hd
    have hd2 := List.mem_of_mem_take hd
    obtain ⟨el, hel, hbuild⟩ := List.mem_map.mp hd2
    obtain ⟨hmem, hpred⟩ := List.mem_filter.mp hel
    rw [Bool.and_eq_true, Bool.not_eq_true'] at hpred
    exact ⟨el, hmem, hpred.1, hpred.2, hbuild⟩

/-! ## Planner: backend interchangeability -/

/-- C8: the two backends assemble character-for-character identical element
listings and user prompts from the same snapshot and command, so the request
text alone cannot reveal which backend composed it. -/
theorem backends_format_identically :
    (∀ els : List DOMElement,
      ClaudeClient.formatElements els = OpenAIClient.formatElements els) ∧
    (∀ url title elementsText userCommand : String,
      ClaudeClient.buildUserPrompt url title elementsText userCommand =
        OpenAIClient.buildUserPrompt url title elementsText userCommand) :=
  ⟨fun _ => rfl, fun _ _ _ _ => rfl⟩

/-! ## Orchestrator -/

/-- C9 counterexample: on an empty plan the orchestrator's chat reply is
`I could not determine any actions to take for this command.`, not the
claimed `no actions to perform`. -/
theorem handlePlannedActions_message_counterexample :
    handlePlannedActions [] =
      PlanOutcome.noActions "I could not determine any actions to take for this command." ∧
    handlePlannedActions [] ≠ PlanOutcome.noActions "no actions to perform" := by
  exact ⟨rfl, by decide⟩

/-- C9 (amended): when the planner returns an empty action list the
orchestrator reports `I could not determine any actions to take for this
command.` and the executor is never invoked for that command. -/
theorem handlePlannedActions_empty_amended :
    handlePlannedActions [] =
      PlanOutcome.noActions "I could not determine any actions to take for this command." ∧
    invokesExecutor (handlePlannedActions []) = false :=
  ⟨rfl, rfl⟩

/-! ## Reply parsing: bracket-span lemmas -/

/-- `dropWhile` consumes an entire block of satisfying elements and then
leaves a list it would not shorten untouched. -/
lemma dropWhile_append_all {p : Char → Bool} :
    ∀ (pre l : List Char), (∀ c ∈ pre, p c = true) → l.dropWhile p = l →
      (pre ++ l).dropWhile p = l := by
  intro pre l h hl
  induction pre with
  | nil => simpa using hl
  | cons c pre' ih =>
    rw [List.cons_append, List.dropWhile_cons, if_pos (h c (by simp))]
    exact ih fun c' hc' => h c' (by simp [hc'])

/-- `dropWhile (· ≠ c₀)` returns nothing or a list starting with `c₀`. -/
lemma dropWhile_ne_shape (c0 : Char) :
    ∀ l : List Char,
      l.dropWhile (fun c => !(c = c0)) = [] ∨
      ∃ t, l.dropWhile (fun c => !(c = c0)) = c0 :: t := by
  intro l
  induction l with
  | nil => left; rfl
  | cons c l' ih =>
    by_cases h : c = c0
    · right
      exact ⟨l', by rw [List.dropWhile_cons]; simp [h]⟩
    · rw [List.dropWhile_cons, if_pos (by simp [h])]
      exact ih

lemma mem_of_mem_dropWhile {p : Char → Bool} {c : Char} {l : List Char}
    (h : c ∈ l.dropWhile p) : c ∈ l :=
  (List.dropWhile_sublist p).subset h

/-- Trimming only removes characters: the trimmed reply is a sublist of the
reply. -/
lemma jsTrimL_sublist (cs : List Char) : (jsTrimL cs).Sublist cs := by
  unfold jsTrimL
  have s1 : (cs.dropWhile Char.isWhitespace).Sublist cs := List.dropWhile_sublist _
  have s2 : ((cs.dropWhile Char.isWhitespace).reverse.dropWhile Char.isWhitespace).Sublist
      (cs.dropWhile Char.isWhitespace).reverse := List.dropWhile_sublist _
  have s3 := List.reverse_sublist.mpr s2
  rw [List.reverse_reverse] at s3
  exact s3.trans s1

/-- A successful bracket-span match exhibits a `[` followed later by a `]`. -/
lemma bracketSpan_sublist (cs t : List Char) (h : bracketSpan cs = some t) :
    List.Sublist ['[', ']'] cs := by
  unfold bracketSpan at h
  rcases dropWhile_ne_shape '[' cs with hA | ⟨t', hA⟩
  · rw [hA] at h
    simp [dropTrailing] at h
  · rw [hA] at h
    rcases dropWhile_ne_shape ']' (('[' :: t').reverse) with hB | ⟨s, hB⟩
    · rw [dropTrailing, hB] at h
      simp at h
    · have hmem : ']' ∈ '[' :: t' := by
        have h1 : ']' ∈ (']' :: s) := by simp
        have h2 : ']' ∈ ('[' :: t').reverse := by
          rw [← hB] at h1
          exact mem_of_mem_dropWhile h1
        simpa using h2
    -- `]` is in the tail, since it differs from `[`
      have hmem' : ']' ∈ t' := by
        rcases List.mem_cons.mp hmem with h' | h'
        · exact absurd h'.symm (by decide)
        · exact h'
      have hsub : List.Sublist ['[', ']'] ('[' :: t') :=
        List.Sublist.cons₂ '[' (List.singleton_sublist.mpr hmem')
      exact hsub.trans (hA ▸ List.dropWhile_sublist _)

/-- A reply with no `[` followed by a later `]` has no bracket span, before or
after trimming. -/
lemma no_span_of_no_sublist (cs : List Char)
    (h : ¬ List.Sublist ['[', ']'] cs) :
    bracketSpan (jsTrimL cs) = none := by
  cases hb : bracketSpan (jsTrimL cs) with
  | none => rfl
  | some t =>
    exact absurd ((bracketSpan_sublist _ _ hb).trans (jsTrimL_sublist cs)) h

/-- On a reply of the form `prose ++ [array] ++ prose` where the leading prose
has no `[` and the trailing prose no `]`, the greedy bracket regex matches
exactly the array text. -/
lemma bracketSpan_of_shape (pre mid post : List Char)
    (hpre : '[' ∉ pre) (hpost : ']' ∉ post) :
    bracketSpan (pre ++ ('[' :: mid ++ [']']) ++ post) =
      some ('[' :: mid ++ [']']) := by
  have h1 : (pre ++ ('[' :: mid ++ [']']) ++ post).dropWhile (fun c => !(c = '[')) =
      ('[' :: mid ++ [']']) ++ post := by
    rw [List.append_assoc]
    apply dropWhile_append_all
    · intro c hc
      by_cases hcc : c = '['
      · exact absurd (hcc ▸ hc) hpre
      · simp [hcc]
    · simp [List.dropWhile_cons]
  have h2 : dropTrailing (fun c => !(c = ']')) (('[' :: mid ++ [']']) ++ post) =
      '[' :: mid ++ [']'] := by
    unfold dropTrailing
    have hrev : (('[' :: mid ++ [']']) ++ post).reverse =
        post.reverse ++ (']' :: (mid.reverse ++ ['['])) := by
      simp
    rw [hrev, dropWhile_append_all]
    · simp
    · intro c hc
      by_cases hcc : c = ']'
      · subst hcc
        exact absurd (List.mem_reverse.mp hc) hpost
      · simp [hcc]
    · simp [List.dropWhile_cons]
  unfold bracketSpan
  rw [h1, h2]
  simp

/-- Trimming a `prose ++ [array] ++ prose` reply leaves prose of the same
bracket-free shape around the intact array text. -/
lemma jsTrimL_shape (pre mid post : List Char)
    (hpre : '[' ∉ pre) (hpost : ']' ∉ post) :
    ∃ pre2 post2,
      jsTrimL (pre ++ ('[' :: mid ++ [']']) ++ post) =
        pre2 ++ ('[' :: mid ++ [']']) ++ post2 ∧ '[' ∉ pre2 ∧ ']' ∉ post2 := by
  obtain ⟨pre2, hstep1, hpre2⟩ :
      ∃ pre2,
        (pre ++ ('[' :: mid ++ [']']) ++ post).dropWhile Char.isWhitespace =
          pre2 ++ (('[' :: mid ++ [']']) ++ post) ∧ '[' ∉ pre2 := by
    rw [List.append_assoc, List.dropWhile_append]
    by_cases hp : (pre.dropWhile Char.isWhitespace).isEmpty = true
    · rw [if_pos hp]
      refine ⟨[], ?_, by simp⟩
      simp only [List.nil_append]
      have hws : ('[' : Char).isWhitespace = false := by decide
      simp [List.dropWhile_cons, hws]
    · rw [if_neg hp]
      refine ⟨pre.dropWhile Char.isWhitespace, rfl, fun hmem => hpre ?_⟩
      exact mem_of_mem_dropWhile hmem
  unfold jsTrimL
  rw [hstep1]
  have hrev : (pre2 ++ (('[' :: mid ++ [']']) ++ post)).reverse =
      post.reverse ++ (']' :: (mid.reverse ++ ('[' :: pre2.reverse))) := by
    simp
  rw [hrev, List.dropWhile_append]
  by_cases hq : (post.reverse.dropWhile Char.isWhitespace).isEmpty = true
  · rw [if_pos hq]
    refine ⟨pre2, [], ?_, hpre2, by simp⟩
    have hws : (']' : Char).isWhitespace = false := by decide
    simp [List.dropWhile_cons, hws]
  · rw [if_neg hq]
    refine ⟨pre2, (post.reverse.dropWhile Char.isWhitespace).reverse, ?_, hpre2, ?_⟩
    · simp
    · intro hmem
      have h1 : (']' : Char) ∈ post.reverse.dropWhile Char.isWhitespace :=
        List.mem_reverse.mp hmem
      exact hpost (List.mem_reverse.mp (mem_of_mem_dropWhile h1))

/-- C3 counterexample: the claim fails for prose containing brackets.  The
reply below is a valid JSON array of actions (conjuncts 1 and 2) surrounded
by leading and trailing prose, yet `extractActions` throws instead of
extracting and decoding that array: the greedy regex spans from the array's
`[` to the `]` of the trailing prose `[ok]`, and that span is not valid
JSON. -/
theorem extractActions_prose_counterexample :
    jsonParseL ("[\x7b\"type\":\"click\",\"selector\":\"#a\"\x7d]".data) =
      some (Json.arr [Json.obj [("type", Json.str "click"), ("selector", Json.str "#a")]]) ∧
    decodeActions
        (Json.arr [Json.obj [("type", Json.str "click"), ("selector", Json.str "#a")]]) =
      some [{ type := "click", selector := "#a" }] ∧
    extractActionsL ("Here: ".data ++
        "[\x7b\"type\":\"click\",\"selector\":\"#a\"\x7d]".data ++ " [ok]".data) =
      Except.error "SyntaxError: JSON.parse" :=
  ⟨rfl, rfl, rfl⟩

/-- C3 (amended): when the leading prose contains no `[` and the trailing
prose no `]`, `extractActions` takes exactly the array text and returns its
`JSON.parse`; and a reply with no `[` followed by a later `]` (no array-like
substring) fails with the thrown `Could not find JSON array in response`. -/
theorem extractActions_amended :
    (∀ (pre mid post : List Char) (v : Json),
      '[' ∉ pre → ']' ∉ post →
      jsonParseL ('[' :: mid ++ [']']) = some v →
      extractActionsL (pre ++ ('[' :: mid ++ [']']) ++ post) = Except.ok v) ∧
    (∀ cs : List Char, ¬ List.Sublist ['[', ']'] cs →
      extractActionsL cs = Except.error "Could not find JSON array in response") := by
  constructor
  · intro pre mid post v hpre hpost hparse
    obtain ⟨pre2, post2, htrim, hpre2, hpost2⟩ := jsTrimL_shape pre mid post hpre hpost
    have hspan : bracketSpan (jsTrimL (pre ++ ('[' :: mid ++ [']']) ++ post)) =
        some ('[' :: mid ++ [']']) := by
      rw [htrim]
      exact bracketSpan_of_shape pre2 mid post2 hpre2 hpost2
    unfold extractActionsL
    simp only [hspan, hparse]
  · intro cs h
    unfold extractActionsL
    simp only [no_span_of_no_sublist cs h]

/-- Witness for the amended C3 at concrete inputs: bracket-free prose around
`["go"]`, and a reply with no array-like substring. -/
theorem extractActions_amended_witness :
    extractActionsL ("Sure: ".data ++ ('[' :: "\"go\"".data ++ [']']) ++ " ok".data) =
      Except.ok (Json.arr [Json.str "go"]) ∧
    extractActionsL "no array here".data =
      Except.error "Could not find JSON array in response" := by
  constructor
  · exact extractActions_amended.1 "Sure: ".data "\"go\"".data " ok".data
      (Json.arr [Json.str "go"]) (by decide) (by decide) rfl
  · refine extractActions_amended.2 "no array here".data ?_
    intro h
    exact absurd (h.subset (show ('[' : Char) ∈ ['[', ']'] by decide)) (by decide)

/-- C4 counterexample: a reply whose bracket span decodes to a value that is
not well-formed per the Action shape — an array of one object with no `type`
and no `selector` — is returned as the action list (`Except.ok`), not
rejected: `plan` raises no error on malformed Action values. -/
theorem extractActions_no_validation_counterexample :
    extractActionsL "[\x7b\"value\":\"x\"\x7d]".data =
      Except.ok (Json.arr [Json.obj [("value", Json.str "x")]]) ∧
    decodeActions (Json.arr [Json.obj [("value", Json.str "x")]]) = none :=
  ⟨rfl, rfl⟩

/-- C4 (amended): `plan` validates nothing beyond JSON syntax: whenever the
bracket span of the trimmed reply parses as JSON, `extractActions` returns
the parsed value as the action list even when it is malformed per the Action
shape (fails to decode); errors arise only from a missing span or a JSON
syntax error. -/
theorem extractActions_no_shape_validation (cs span : List Char) (v : Json)
    (h1 : bracketSpan (jsTrimL cs) = some span)
    (h2 : jsonParseL span = some v)
    (_h3 : decodeActions v = none) :
    extractActionsL cs = Except.ok v := by
  unfold extractActionsL
  simp only [h1, h2]

/-- Witness for the amended C4 at a concrete input: the whole reply is the
span `[{"value":"x"}]`, whose parse is returned although it fails the Action
shape. -/
theorem extractActions_no_shape_validation_witness :
    extractActionsL "[\x7b\"value\":\"x\"\x7d]".data =
      Except.ok (Json.arr [Json.obj [("value", Json.str "x")]]) := by
  exact extractActions_no_shape_validation "[\x7b\"value\":\"x\"\x7d]".data
    "[\x7b\"value\":\"x\"\x7d]".data (Json.arr [Json.obj [("value", Json.str "x")]])
    rfl rfl rfl

end OpenTabAgent
